import Mathlib

/-!
Verification development for the `fol-parser` library: a LaTeX-notation
first-order-logic parser consisting of a tokenizer, two nested
precedence-climbing parsers (formulas and terms) over a caller-supplied
syntax table, and a set of semantic validation passes.

The definitions below are a shallow embedding of the TypeScript sources
(`syntax.ts`, `tokenizer.ts`, `parser.ts`, `semantic-analyzer.ts`,
`index.ts`).  The destructively consumed token array of the source is
modelled by threading a `List Token` through every parser; the mutually
recursive parsers take an explicit fuel parameter (`Nat`) and return
`none` on fuel exhaustion, so that all theorems about parser results are
stated as `= some …`.  JavaScript `Set`/`Map` values are modelled as
insertion-ordered duplicate-free lists, matching the iteration order the
source relies on.  JavaScript numbers used as precedences are modelled
as `Int`, and the `Infinity` minimum binding power used for quantifier
scopes is modelled as `none : Option Int`.
-/

namespace FolParser

/-- Character-range test on code points, used to embed the character
classes of the source's regular expressions. -/
def charBetween (lo hi : Nat) (c : Char) : Bool :=
  decide (lo ≤ c.toNat ∧ c.toNat ≤ hi)

/-- Letter test matching the tokenizer's regular expression `[a-zA-Z]`. -/
def isLetterChar (c : Char) : Bool :=
  charBetween 97 122 c || charBetween 65 90 c

/-- Digit test matching the regular expression `[0-9]`. -/
def isDigitChar (c : Char) : Bool :=
  charBetween 48 57 c

/-- Associativity of an infix connective (`'left' | 'right'`). -/
inductive Assoc where
  | left
  | right
deriving DecidableEq, Repr

/-- Connectives from `syntax.ts`: prefix (label, precedence), infix
(label, precedence, associativity) or nullary (label). -/
inductive Connective where
  | cpre (label : String) (precedence : Int)
  | cinf (label : String) (precedence : Int) (assoc : Assoc)
  | cnul (label : String)
deriving DecidableEq, Repr

/-- Predicates from `syntax.ts`: prefix style carries an arity, infix
style always has arity 2. -/
inductive Pred where
  | ppre (label : String) (arity : Nat)
  | pinf (label : String)
deriving DecidableEq, Repr

/-- Functions from `syntax.ts`: prefix style carries an arity, infix
style always has arity 2 and carries a precedence. -/
inductive Func where
  | fpre (label : String) (arity : Nat)
  | finf (label : String) (precedence : Int)
deriving DecidableEq, Repr

/-- A tagged syntax-table entry (`SyntaxConstruct` in `syntax.ts`). -/
inductive SyntaxConstruct where
  | connective (c : Connective)
  | quantifier (label : String)
  | predicate (p : Pred)
  | function (f : Func)
deriving DecidableEq, Repr

/-- The syntax table (`Syntax = Map<string, SyntaxConstruct>`), as an
association list keyed by spelling with distinct keys. -/
abbrev SynTable : Type := List (String × SyntaxConstruct)

/-- Lookup in the syntax table (`syntax.get`). -/
def synGet (sy : SynTable) (k : String) : Option SyntaxConstruct :=
  List.lookup k (sy : List (String × SyntaxConstruct))

/-- Token kinds from `tokenizer.ts`: a table-resolved construct spread
into the token, or `char`, `metavariable`, `unrecognized`. -/
inductive TokKind where
  | connective (c : Connective)
  | quantifier (label : String)
  | predicate (p : Pred)
  | function (f : Func)
  | char
  | metavariable (letter : String)
  | unrecognized
deriving DecidableEq, Repr

/-- Kind of token corresponding to a table construct (the object spread
`{ ...syntax.get(x) }` in the tokenizer). -/
def SyntaxConstruct.toKind : SyntaxConstruct → TokKind
  | .connective c => .connective c
  | .quantifier l => .quantifier l
  | .predicate p => .predicate p
  | .function f => .function f

/-- A token: a kind plus the original spelling (`value`). -/
structure Token where
  kind : TokKind
  value : String
deriving DecidableEq, Repr

/-- The token produced when a control sequence named `cs` ends
(`endCtrlSeq` in `tokenizer.ts`): the reserved metavariable names, a
table lookup, or an unrecognized token; the value keeps the backslash. -/
def endCtrlTok (sy : SynTable) (cs : String) : Token :=
  let value := "\\" ++ cs
  if cs = "phi" ∨ cs = "psi" ∨ cs = "chi" then
    { kind := .metavariable cs, value := value }
  else
    match synGet sy cs with
    | some con => { kind := con.toKind, value := value }
    | none => { kind := .unrecognized, value := value }

/-- The token produced for a standalone character: table lookup of the
one-character spelling, else a plain `char` token. -/
def charTok (sy : SynTable) (c : Char) : Token :=
  match synGet sy (String.singleton c) with
  | some con => { kind := con.toKind, value := String.singleton c }
  | none => { kind := .char, value := String.singleton c }

/-- Recursive core of the tokenizer.  The `ctrl` argument is the
control-sequence accumulation state of `tokenize` (`null` idle /
accumulated letters).  Mirrors the character loop of `tokenizer.ts`:
letters extend an open control sequence; the first character after a
backslash always ends it (control symbol); otherwise the sequence is
closed and the character is processed normally (backslash starts a new
sequence, spaces are discarded, anything else becomes a lookup). -/
def tokenizeGo (sy : SynTable) : Option String → List Char → List Token
  | some cs, [] => [endCtrlTok sy cs]
  | none, [] => []
  | some cs, c :: rest =>
    if isLetterChar c then
      tokenizeGo sy (some (cs.push c)) rest
    else if cs = "" then
      endCtrlTok sy (cs.push c) :: tokenizeGo sy none rest
    else
      endCtrlTok sy cs ::
        (if c = '\\' then tokenizeGo sy (some "") rest
         else if c = ' ' then tokenizeGo sy none rest
         else charTok sy c :: tokenizeGo sy none rest)
  | none, c :: rest =>
    if c = '\\' then tokenizeGo sy (some "") rest
    else if c = ' ' then tokenizeGo sy none rest
    else charTok sy c :: tokenizeGo sy none rest

/-- The tokenizer (`tokenize` in `tokenizer.ts`). -/
def tokenize (input : String) (sy : SynTable) : List Token :=
  tokenizeGo sy none input.data

/-- Syntax trees (`STree = STree[] | string`). -/
inductive STree where
  | str (s : String)
  | node (l : List STree)
deriving Repr

/-- String content of a leaf; the source casts tree positions that are
known to be strings, which is total in JavaScript, so the `node` case is
unreachable in every use below. -/
def strOf : STree → String
  | .str s => s
  | .node _ => ""

/-- Child list of a node; the source spreads tree positions known to be
arrays, so the `str` case is unreachable in every use below. -/
def treeArgs : STree → List STree
  | .node l => l
  | .str _ => []

/-- Subscript-tail test for the variable regular expressions: the empty
tail, or an underscore followed by one or more digits. -/
def subscriptTail : List Char → Bool
  | [] => true
  | c :: ds => decide (c = '_') && !ds.isEmpty && ds.all isDigitChar

/-- Eigenvariable test (`isEigenvar`): the anchored regular expression
for one letter in a-r with an optional numeric subscript. -/
def isEigenvar : STree → Bool
  | .str s =>
    match s.data with
    | c :: rest => charBetween 97 114 c && subscriptTail rest
    | [] => false
  | .node _ => false

/-- Ordinary-variable test (`isRegVar`): the anchored regular expression
for one letter in s-z with an optional numeric subscript. -/
def isRegVar : STree → Bool
  | .str s =>
    match s.data with
    | c :: rest => charBetween 115 122 c && subscriptTail rest
    | [] => false
  | .node _ => false

/-- Single-digit test (`isDigit` in `syntax.ts`). -/
def isDigit : STree → Bool
  | .str s =>
    match s.data with
    | [c] => isDigitChar c
    | _ => false
  | .node _ => false

/-- The default syntax table (`basicSyntax`). -/
def basicSyntax : SynTable :=
  [ ("neg", .connective (.cpre "not" 4)),
    ("land", .connective (.cinf "and" 3 .left)),
    ("lor", .connective (.cinf "or" 2 .left)),
    ("rightarrow", .connective (.cinf "implies" 1 .right)),
    ("leftrightarrow", .connective (.cinf "iff" 0 .right)),
    ("top", .connective (.cnul "true")),
    ("bot", .connective (.cnul "false")),
    ("exists", .quantifier "exists"),
    ("forall", .quantifier "forall"),
    ("=", .predicate (.pinf "eq")) ]

/-- The closed error taxonomy (`ParseError` in `parser.ts`). -/
inductive ParseError where
  | BadToken (expected : Option String) (actual : String)
  | BlankExpression
  | BoundEigenvar (v : String)
  | DoubleBound (v : String)
  | EigenvarDeclaredFree (v : String) (metavariable : String)
  | FreeVar (v : String)
  | InconsistentAllowedSubs (metavar : String)
  | UnexpectedEnd (expected : Option String)
  | WrongNumArgs (symbol : String) (expected : Nat) (actual : Nat)
deriving DecidableEq, Repr

/-- The allowed-substitutions map (`Map<string, Set<string>>`) as an
insertion-ordered association list whose values are insertion-ordered
duplicate-free lists. -/
abbrev AllowedSubs : Type := List (String × List String)

/-- A parse result (`ParseResult`): success with tree and map, or error. -/
inductive ParseResult where
  | success (tree : STree) (allowedSubs : List (String × List String))
  | error (e : ParseError)
deriving Repr

/-- Success constructor (`succeedWith`); the source defaults the map to
an empty one, which callers here always pass explicitly. -/
def succeedWith (tree : STree) (allowedSubs : List (String × List String)) : ParseResult :=
  .success tree allowedSubs

/-- Error constructor (`failWith`). -/
def failWith (e : ParseError) : ParseResult :=
  .error e

/-- Test whether the next token has the given `value`. -/
def headValueIs (tokens : List Token) (v : String) : Bool :=
  match tokens with
  | [] => false
  | t :: _ => t.value = v

/-- Case analysis of `delimUpNext`: a bare delimiter up next, or a
`\left` wrapper followed by the delimiter. -/
def delimUpNext (tokens : List Token) (delim : String) : Bool :=
  headValueIs tokens delim ||
    (headValueIs tokens "\\left" && headValueIs tokens.tail delim)

/-- The source's `hasLowercase` check is the unanchored regular
expression `/[a-z]/.test(value)` of `parseVariable`: it asks only
whether the value contains some lowercase letter. -/
def hasLowercase (s : String) : Bool :=
  s.data.any (charBetween 97 122)

/-- Consume one token of the given value (`expect`). -/
def expect (tokens : List Token) (v : String) : ParseResult × List Token :=
  match tokens with
  | [] => (failWith (.UnexpectedEnd (some v)), [])
  | next :: rest =>
    if next.value = v then (succeedWith (.str next.value) [], rest)
    else (failWith (.BadToken (some v) next.value), rest)

/-- Digit-token test used by `parseInteger`. -/
def digitTok (t : Token) : Bool :=
  t.kind = TokKind.char && isDigit (.str t.value)

/-- Greedy digit loop of `parseInteger`, returning the accumulated text
and the rest of the tokens. -/
def parseIntegerGo (acc : String) : List Token → String × List Token
  | [] => (acc, [])
  | t :: rest =>
    if digitTok t then parseIntegerGo (acc ++ t.value) rest
    else (acc, t :: rest)

/-- Parse one or more digit tokens into their concatenation
(`parseInteger`). -/
def parseInteger (tokens : List Token) : ParseResult × List Token :=
  let (result, ts) := parseIntegerGo "" tokens
  if result = "" then
    match ts with
    | [] => (failWith (.UnexpectedEnd none), ts)
    | t :: _ => (failWith (.BadToken none t.value), ts)
  else (succeedWith (.str result) [], ts)

/-- Parse a brace-delimited group around the given parser
(`parseGroup`); the only caller passes `parseInteger`. -/
def parseGroup (tokens : List Token)
    (parser : List Token → ParseResult × List Token) : ParseResult × List Token :=
  match expect tokens "\x7b" with
  | (.error e, ts) => (.error e, ts)
  | (.success _ _, ts) =>
    match parser ts with
    | (.error e, ts2) => (.error e, ts2)
    | (.success t s, ts2) =>
      match expect ts2 "\x7d" with
      | (.error e, ts3) => (.error e, ts3)
      | (.success _ _, ts3) => (.success t s, ts3)

/-- Parse `_` followed by a single bare digit or a brace-delimited
integer (`parseSubscript`). -/
def parseSubscript (tokens : List Token) : ParseResult × List Token :=
  match expect tokens "_" with
  | (.error e, ts) => (.error e, ts)
  | (.success _ _, ts) =>
    match ts with
    | [] => (failWith (.UnexpectedEnd none), [])
    | first :: rest =>
      if digitTok first then (succeedWith (.str first.value) [], rest)
      else parseGroup (first :: rest) parseInteger

/-- Parse a variable: one token whose value passes the (unanchored)
lowercase-letter test, with an optional subscript (`parseVariable`). -/
def parseVariable (tokens : List Token) : ParseResult × List Token :=
  match tokens with
  | [] => (failWith (.UnexpectedEnd none), [])
  | next :: rest =>
    if hasLowercase next.value then
      if headValueIs rest "_" then
        match parseSubscript rest with
        | (.error e, ts) => (.error e, ts)
        | (.success sub _, ts) =>
          (succeedWith (.str (next.value ++ "_" ++ strOf sub)) [], ts)
      else (succeedWith (.str next.value) [], rest)
    else (failWith (.BadToken none next.value), rest)

/-- Run a fueled parser but restore the token state on failure
(`tryParse`): the single intentional backtracking point. -/
def tryParse (tokens : List Token)
    (parser : List Token → Option (ParseResult × List Token)) :
    Option (ParseResult × List Token) :=
  match parser tokens with
  | none => none
  | some (.error e, _) => some (.error e, tokens)
  | some (.success t s, ts) => some (.success t s, ts)

/-- Parse a delimited group, accepting either a bare delimiter pair or a
`\left`/`\right`-wrapped pair (`parseDelimiter`). -/
def parseDelimiter (tokens : List Token) (lDelim rDelim : String)
    (parser : List Token → Option (ParseResult × List Token)) :
    Option (ParseResult × List Token) :=
  match tokens with
  | [] => some (failWith (.UnexpectedEnd (some lDelim)), [])
  | first :: rest =>
    if first.value = "\\left" then
      match expect rest lDelim with
      | (.error e, ts) => some (.error e, ts)
      | (.success _ _, ts) =>
        match parser ts with
        | none => none
        | some (.error e, ts2) => some (.error e, ts2)
        | some (.success t s, ts2) =>
          match expect ts2 "\\right" with
          | (.error e, ts3) => some (.error e, ts3)
          | (.success _ _, ts3) =>
            match expect ts3 rDelim with
            | (.error e, ts4) => some (.error e, ts4)
            | (.success _ _, ts4) => some (.success t s, ts4)
    else if first.value = lDelim then
      match parser rest with
      | none => none
      | some (.error e, ts2) => some (.error e, ts2)
      | some (.success t s, ts2) =>
        match expect ts2 rDelim with
        | (.error e, ts3) => some (.error e, ts3)
        | (.success _ _, ts3) => some (.success t s, ts3)
    else some (failWith (.BadToken (some lDelim) first.value), rest)

/-- Parenthesized group (`parseParens`). -/
def parseParens (tokens : List Token)
    (parser : List Token → Option (ParseResult × List Token)) :
    Option (ParseResult × List Token) :=
  parseDelimiter tokens "(" ")" parser

/-- Comma loop of `parseList`, accumulating parsed items. -/
def parseListGo (fuel : Nat) (parser : List Token → Option (ParseResult × List Token))
    (acc : List STree) (tokens : List Token) : Option (ParseResult × List Token) :=
  match fuel with
  | 0 => none
  | fuel + 1 =>
    match tokens with
    | [] => some (succeedWith (.node acc) [], [])
    | t :: rest =>
      if t.value = "," then
        match parser rest with
        | none => none
        | some (.error e, ts) => some (.error e, ts)
        | some (.success item _, ts) => parseListGo fuel parser (acc ++ [item]) ts
      else some (succeedWith (.node acc) [], t :: rest)

/-- Parse a non-empty comma-separated list with the given item parser
(`parseList`); the result tree is the node of the items. -/
def parseList (fuel : Nat) (parser : List Token → Option (ParseResult × List Token))
    (tokens : List Token) : Option (ParseResult × List Token) :=
  match parser tokens with
  | none => none
  | some (.error e, ts) => some (.error e, ts)
  | some (.success item _, ts) => parseListGo fuel parser [item] ts

/-- Left and right binding power of a connective (`bpConn`): base is
four times the precedence; left-associative infix gets `(base+2,
base+3)`, right-associative gets `(base+1, base)`, prefix `(-1, base)`,
nullary `(-1, -1)`. -/
def bpConn : Connective → Int × Int
  | .cnul _ => (-1, -1)
  | .cpre _ p => (-1, 4 * p)
  | .cinf _ p .left => (4 * p + 2, 4 * p + 3)
  | .cinf _ p .right => (4 * p + 1, 4 * p)

/-- Left and right binding power of a function (`bpFunc`): base is twice
the precedence; infix gets `(base, base+1)`, prefix `(-1, -1)`. -/
def bpFunc : Func → Int × Int
  | .fpre _ _ => (-1, -1)
  | .finf _ p => (2 * p, 2 * p + 1)

/-- Comparison of a binding power with the minimum binding power of a
formula-parser call; `none` models the `Infinity` used for quantifier
scopes, which every finite binding power is below. -/
def bpLt (l : Int) : Option Int → Bool
  | none => true
  | some m => decide (l < m)

mutual

/-- The formula Pratt parser (`parseFormula`): parse a primary (prefix
connective application, quantifier, or basic formula), then fold infix
connectives via `parseFormulaLoop`. -/
def parseFormula (fuel : Nat) (minBp : Option Int) (tokens : List Token) :
    Option (ParseResult × List Token) :=
  match fuel with
  | 0 => none
  | fuel + 1 =>
    match tokens with
    | [] => some (failWith (.UnexpectedEnd none), [])
    | first :: rest =>
      match first.kind with
      | .connective (.cpre label prec) =>
        match parseFormula fuel (some (bpConn (.cpre label prec)).2) rest with
        | none => none
        | some (.error e, ts) => some (.error e, ts)
        | some (.success t _, ts) =>
          parseFormulaLoop fuel minBp (.node [.str label, t]) ts
      | .quantifier label =>
        match parseVariable rest with
        | (.error e, ts) => some (.error e, ts)
        | (.success vt _, ts) =>
          if isEigenvar vt then some (failWith (.BoundEigenvar (strOf vt)), ts)
          else
            match parseFormula fuel none ts with
            | none => none
            | some (.error e, ts2) => some (.error e, ts2)
            | some (.success sc _, ts2) =>
              parseFormulaLoop fuel minBp (.node [.str label, vt, sc]) ts2
      | _ =>
        match parseBasicFormula fuel tokens with
        | none => none
        | some (.error e, ts) => some (.error e, ts)
        | some (.success t _, ts) => parseFormulaLoop fuel minBp t ts

/-- The infix-connective loop of `parseFormula`: while the next token is
an infix connective whose left binding power is at least `minBp`,
consume it, parse its right side at its right binding power, and fold. -/
def parseFormulaLoop (fuel : Nat) (minBp : Option Int) (tree : STree)
    (tokens : List Token) : Option (ParseResult × List Token) :=
  match fuel with
  | 0 => none
  | fuel + 1 =>
    match tokens with
    | [] => some (succeedWith tree [], [])
    | infixTok :: rest =>
      match infixTok.kind with
      | .connective (.cinf label prec assoc) =>
        if bpLt (bpConn (.cinf label prec assoc)).1 minBp then
          some (succeedWith tree [], infixTok :: rest)
        else
          match parseFormula fuel (some (bpConn (.cinf label prec assoc)).2) rest with
          | none => none
          | some (.error e, ts) => some (.error e, ts)
          | some (.success rhs _, ts) =>
            parseFormulaLoop fuel minBp (.node [.str label, tree, rhs]) ts
      | _ => some (succeedWith tree [], infixTok :: rest)

/-- Basic-formula alternatives (`parseBasicFormula`), tried in source
order: metavariable application, nullary connective, prefix predicate
with arity check, speculative parenthesized formula with backtracking,
and finally the infix-predicate fallback. -/
def parseBasicFormula (fuel : Nat) (tokens : List Token) :
    Option (ParseResult × List Token) :=
  match fuel with
  | 0 => none
  | fuel + 1 =>
    match tokens with
    | [] => some (failWith (.UnexpectedEnd none), [])
    | first :: rest =>
      match first.kind with
      | .metavariable letter =>
        match
          (if headValueIs rest "_" then
            match parseSubscript rest with
            | (.error e, ts) => Sum.inr (e, ts)
            | (.success sub _, ts) => Sum.inl (letter ++ "_" ++ strOf sub, ts)
          else Sum.inl (letter, rest) :
            Sum (String × List Token) (ParseError × List Token))
        with
        | Sum.inr (e, ts) => some (.error e, ts)
        | Sum.inl (metavar, ts) =>
          if delimUpNext ts "(" then
            match parseParens ts
                (fun t2 => parseList fuel (fun t3 => some (parseVariable t3)) t2) with
            | none => none
            | some (.error e, ts2) => some (.error e, ts2)
            | some (.success withVars _, ts2) =>
              some (succeedWith
                (.node (.str "_metavar" :: .str metavar :: treeArgs withVars)) [], ts2)
          else some (succeedWith (.node [.str "_metavar", .str metavar]) [], ts)
      | .connective (.cnul label) => some (succeedWith (.str label) [], rest)
      | .predicate (.ppre label arity) =>
        match parseParens rest
            (fun t2 => parseList fuel (fun t3 => parseTerm fuel 0 t3) t2) with
        | none => none
        | some (.error e, ts) => some (.error e, ts)
        | some (.success args _, ts) =>
          if (treeArgs args).length ≠ arity then
            some (failWith (.WrongNumArgs first.value arity (treeArgs args).length), ts)
          else some (succeedWith (.node (.str label :: treeArgs args)) [], ts)
      | _ =>
        if delimUpNext tokens "(" then
          match tryParse tokens
              (fun t2 => parseParens t2 (fun t3 => parseFormula fuel (some 0) t3)) with
          | none => none
          | some (.success t s, ts) => some (.success t s, ts)
          | some (.error _, ts) => parseInfixPred fuel ts
        else parseInfixPred fuel tokens

/-- The fallback basic formula (`parseInfixPred`): a term, an infix
predicate token, and a second term. -/
def parseInfixPred (fuel : Nat) (tokens : List Token) :
    Option (ParseResult × List Token) :=
  match fuel with
  | 0 => none
  | fuel + 1 =>
    match parseTerm fuel 0 tokens with
    | none => none
    | some (.error e, ts) => some (.error e, ts)
    | some (.success lhs _, ts) =>
      match ts with
      | [] => some (failWith (.UnexpectedEnd none), [])
      | pred :: ts2 =>
        match pred.kind with
        | .predicate (.pinf label) =>
          match parseTerm fuel 0 ts2 with
          | none => none
          | some (.error e, ts3) => some (.error e, ts3)
          | some (.success rhs _, ts3) =>
            some (succeedWith (.node [.str label, lhs, rhs]) [], ts3)
        | _ => some (failWith (.BadToken none pred.value), ts2)

/-- The term Pratt parser (`parseTerm`): a basic term followed by the
infix-function loop; the minimum binding power is always a number. -/
def parseTerm (fuel : Nat) (minBp : Int) (tokens : List Token) :
    Option (ParseResult × List Token) :=
  match fuel with
  | 0 => none
  | fuel + 1 =>
    match tokens with
    | [] => some (failWith (.UnexpectedEnd none), [])
    | _ :: _ =>
      match parseBasicTerm fuel tokens with
      | none => none
      | some (.error e, ts) => some (.error e, ts)
      | some (.success t _, ts) => parseTermLoop fuel minBp t ts

/-- The infix-function loop of `parseTerm`. -/
def parseTermLoop (fuel : Nat) (minBp : Int) (tree : STree)
    (tokens : List Token) : Option (ParseResult × List Token) :=
  match fuel with
  | 0 => none
  | fuel + 1 =>
    match tokens with
    | [] => some (succeedWith tree [], [])
    | infixTok :: rest =>
      match infixTok.kind with
      | .function (.finf label prec) =>
        if decide ((bpFunc (.finf label prec)).1 < minBp) then
          some (succeedWith tree [], infixTok :: rest)
        else
          match parseTerm fuel (bpFunc (.finf label prec)).2 rest with
          | none => none
          | some (.error e, ts) => some (.error e, ts)
          | some (.success rhs _, ts) =>
            parseTermLoop fuel minBp (.node [.str label, tree, rhs]) ts
      | _ => some (succeedWith tree [], infixTok :: rest)

/-- Basic-term alternatives (`parseBasicTerm`): prefix function
application with arity check, parenthesized sub-term, or variable. -/
def parseBasicTerm (fuel : Nat) (tokens : List Token) :
    Option (ParseResult × List Token) :=
  match fuel with
  | 0 => none
  | fuel + 1 =>
    match tokens with
    | [] => some (failWith (.UnexpectedEnd none), [])
    | next :: rest =>
      match next.kind with
      | .function (.fpre label arity) =>
        match parseParens rest
            (fun t2 => parseList fuel (fun t3 => parseBasicTerm fuel t3) t2) with
        | none => none
        | some (.error e, ts) => some (.error e, ts)
        | some (.success args _, ts) =>
          if (treeArgs args).length ≠ arity then
            some (failWith (.WrongNumArgs next.value arity (treeArgs args).length), ts)
          else some (succeedWith (.node (.str label :: treeArgs args)) [], ts)
      | _ =>
        if delimUpNext tokens "(" then parseParens tokens (fun t2 => parseTerm fuel 0 t2)
        else some (parseVariable tokens)

end

/-- Insertion into a JavaScript-style set: append if not present. -/
def setAdd (l : List String) (x : String) : List String :=
  if l.contains x then l else l ++ [x]

/-- Set union (`a.union(b)`): the elements of `a` followed by the
elements of `b` not already present. -/
def listUnion (a b : List String) : List String :=
  b.foldl setAdd a

/-- Set deletion (`a.delete(v)`). -/
def listRemove (l : List String) (v : String) : List String :=
  l.filter (fun x => x != v)

/-- The set of a list (`new Set(xs)`): insertion-ordered, keeping first
occurrences. -/
def setOfList (xs : List String) : List String :=
  xs.foldl setAdd []

mutual

/-- Free ordinary variables of a tree (`checkFreeVariables`): collect
`isRegVar` leaves; at a quantifier node recurse into the scope and
delete the bound variable; at any other node union the children
left-to-right (the head/operator position is not visited). -/
def checkFreeVariables (sy : SynTable) : STree → List String
  | .str s => if isRegVar (.str s) then [s] else []
  | .node [] => []
  | .node (op :: args) =>
    match (match op with | .str s => synGet sy s | .node _ => none) with
    | some (.quantifier _) => cfvQuant sy args
    | _ => cfvGo sy [] args

/-- The quantifier case of `checkFreeVariables`: destructure the
arguments as bound variable and scope (`const [variable, scope] =
args`), recurse into the scope and delete the bound variable. -/
def cfvQuant (sy : SynTable) : List STree → List String
  | v :: scope :: _ => listRemove (checkFreeVariables sy scope) (strOf v)
  | _ => []

/-- The left fold of `checkFreeVariables` over a node's arguments. -/
def cfvGo (sy : SynTable) (acc : List String) : List STree → List String
  | [] => acc
  | t :: ts => cfvGo sy (listUnion acc (checkFreeVariables sy t)) ts

end

/-- Set-equality test of two lists: mutual containment; this is exactly
`val.symmetricDifference(correlate).size > 0` negated. -/
def setEqB (a b : List String) : Bool :=
  a.all b.contains && b.all a.contains

/-- First metavariable of `a` on which `b` disagrees as a set
(`findInconsistency`). -/
def findInconsistency (a b : List (String × List String)) :
    Option (String × List String) :=
  a.find? (fun kv =>
    match List.lookup kv.1 b with
    | none => false
    | some w => !setEqB kv.2 w)

/-- Map merge (`new Map([...a, ...b])`): keys keep their first-insertion
position, values from `b` win on shared keys. -/
def mergeSubs (a b : List (String × List String)) : List (String × List String) :=
  a.map (fun kv => (kv.1, (List.lookup kv.1 b).getD kv.2)) ++
    b.filter (fun kv => (List.lookup kv.1 a).isNone)

mutual

/-- Substitution-consistency pass (`checkAllowedSubs`): a metavariable
node becomes a singleton map and is stripped to its bare name; other
nodes merge children left-to-right, failing on the first metavariable
whose declared free sets disagree as sets. -/
def checkAllowedSubs : STree → ParseResult
  | .str s => succeedWith (.str s) []
  | .node [] => succeedWith (.node []) []
  | .node (op :: args) =>
    match op with
    | .str s =>
      if s = "_metavar" then
        match args with
        | mv :: freeVars =>
          succeedWith (.str (strOf mv)) [(strOf mv, setOfList (freeVars.map strOf))]
        | [] => succeedWith (.str "") [("", [])]
      else
        match casGo [] [] args with
        | .error e => .error e
        | .success argsTree subs => .success (.node (.str s :: treeArgs argsTree)) subs
    | .node l =>
      match casGo [] [] args with
      | .error e => .error e
      | .success argsTree subs => .success (.node (.node l :: treeArgs argsTree)) subs

/-- The left fold (`reduce`) of `checkAllowedSubs` over a node's
arguments: rebuild the argument list and merge the children's maps,
failing on the first inconsistency. -/
def casGo (accTree : List STree) (accSubs : List (String × List String)) :
    List STree → ParseResult
  | [] => succeedWith (.node accTree) accSubs
  | a :: as =>
    match checkAllowedSubs a with
    | .error e => .error e
    | .success t s =>
      match findInconsistency accSubs s with
      | some kv => .error (.InconsistentAllowedSubs kv.1)
      | none => casGo (accTree ++ [t]) (mergeSubs accSubs s) as

end

/-- Result of `checkDoubleBindings`: an error, or the set of variables
bound inside the tree. -/
inductive BindResult where
  | err (e : ParseError)
  | ok (bound : List String)
deriving DecidableEq, Repr

mutual

/-- Duplicate-binding pass (`checkDoubleBindings`): at a quantifier
node, recurse into the scope first, then reject if the newly bound
variable is already bound within it; at any other node, merge children's
bound sets and reject the first variable bound by two children. -/
def checkDoubleBindings (sy : SynTable) : STree → BindResult
  | .str _ => .ok []
  | .node [] => .ok []
  | .node (op :: args) =>
    match (match op with | .str s => synGet sy s | .node _ => none) with
    | some (.quantifier _) =>
      match args with
      | v :: scope :: _ =>
        match checkDoubleBindings sy scope with
        | .err e => .err e
        | .ok bound =>
          if bound.contains (strOf v) then .err (.DoubleBound (strOf v))
          else .ok (bound ++ [strOf v])
      | _ => .ok []
    | _ => cdbGo sy [] args

/-- The left fold (`reduce`) of `checkDoubleBindings` over a node's
arguments. -/
def cdbGo (sy : SynTable) (accBound : List String) : List STree → BindResult
  | [] => .ok accBound
  | t :: ts =>
    match checkDoubleBindings sy t with
    | .err e => .err e
    | .ok bound =>
      match (accBound.filter (fun x => bound.contains x)).head? with
      | some shared => .err (.DoubleBound shared)
      | none => cdbGo sy (listUnion accBound bound) ts

end

/-- Eigenvariable-declared-free pass (`checkEigenvars`): the first
declared free variable matching the eigenvariable pattern, scanning
entries and their sets in order. -/
def checkEigenvars : List (String × List String) → Option ParseError
  | [] => none
  | (metavariable, frees) :: rest =>
    match frees.find? (fun v => isEigenvar (.str v)) with
    | some v => some (.EigenvarDeclaredFree v metavariable)
    | none => checkEigenvars rest

/-- The parse entry point (`parse` in `index.ts`): tokenize, reject
blank raw input, run the formula parser, reject leftover tokens, then
run the free-variable, substitution-consistency and eigenvariable
passes.  The fuel is generous enough that exhaustion (`none`) is
unreachable for the inputs considered in the theorems below. -/
def parse (input : String) (sy : SynTable) : Option ParseResult :=
  let tokens := tokenize input sy
  if input.length = 0 then some (failWith .BlankExpression)
  else
    match parseFormula (4 * input.length + 16) (some 0) tokens with
    | none => none
    | some (.error e, _) => some (.error e)
    | some (.success tree _, rem) =>
      match rem with
      | t :: _ => some (failWith (.BadToken none t.value))
      | [] =>
        match (checkFreeVariables sy tree).head? with
        | some v => some (failWith (.FreeVar v))
        | none =>
          match checkAllowedSubs tree with
          | .error e => some (.error e)
          | .success t2 subs =>
            match checkEigenvars subs with
            | some e => some (.error e)
            | none => some (.success t2 subs)

/-! ## Theorems about the claims -/

/-- C1. The semantic analyzer's duplicate-binding pass
(`checkDoubleBindings`) rejects the shadowed binding of `x` in
`\forall x\forall x a=a`, reporting `DoubleBound x` exactly as the claim
describes — but the parse entry point never invokes that pass, so
`parse` returns success on this input instead of the duplicate/shadowed
binding error.  The claim describes the documented four-pass design; the
code omits the wired-in call. -/
theorem c1_parse_skips_double_binding_check :
    parse "\\forall x\\forall x a=a" basicSyntax =
      some (.success
        (.node [.str "forall", .str "x",
          .node [.str "forall", .str "x",
            .node [.str "eq", .str "a", .str "a"]]]) []) ∧
    checkDoubleBindings basicSyntax
        (.node [.str "forall", .str "x",
          .node [.str "forall", .str "x",
            .node [.str "eq", .str "a", .str "a"]]]) =
      .err (.DoubleBound "x") := by
  constructor
  · rfl
  · rfl

/-- C3. Under the default syntax table the declared precedence ordering
holds exactly: negation binds tighter than quantifier reach (the
negation lies inside the scope, `\forall x\neg\phi\land\psi` and
`\neg\forall x\phi`), quantifier reach binds tighter than conjunction
and disjunction (`\exists x\phi\land\psi`, `\exists x\phi\lor\psi`),
conjunction and disjunction bind tighter than implication, and
implication binds tighter than the biconditional — each ordering checked
with the operators on both sides.  All parses are through the full entry
point with `basicSyntax`. -/
theorem c3_default_precedence_ordering :
    parse "\\forall x\\neg\\phi\\land\\psi" basicSyntax =
      some (.success
        (.node [.str "and",
          .node [.str "forall", .str "x", .node [.str "not", .str "phi"]],
          .str "psi"]) [("phi", []), ("psi", [])]) ∧
    parse "\\neg\\forall x\\phi" basicSyntax =
      some (.success
        (.node [.str "not", .node [.str "forall", .str "x", .str "phi"]])
        [("phi", [])]) ∧
    parse "\\neg\\phi\\land\\psi" basicSyntax =
      some (.success
        (.node [.str "and", .node [.str "not", .str "phi"], .str "psi"])
        [("phi", []), ("psi", [])]) ∧
    parse "\\exists x \\phi\\land\\psi" basicSyntax =
      some (.success
        (.node [.str "and",
          .node [.str "exists", .str "x", .str "phi"], .str "psi"])
        [("phi", []), ("psi", [])]) ∧
    parse "\\exists x \\phi\\lor\\psi" basicSyntax =
      some (.success
        (.node [.str "or",
          .node [.str "exists", .str "x", .str "phi"], .str "psi"])
        [("phi", []), ("psi", [])]) ∧
    parse "\\phi\\land\\psi\\rightarrow\\chi" basicSyntax =
      some (.success
        (.node [.str "implies",
          .node [.str "and", .str "phi", .str "psi"], .str "chi"])
        [("phi", []), ("psi", []), ("chi", [])]) ∧
    parse "\\phi\\rightarrow\\psi\\lor\\chi" basicSyntax =
      some (.success
        (.node [.str "implies", .str "phi",
          .node [.str "or", .str "psi", .str "chi"]])
        [("phi", []), ("psi", []), ("chi", [])]) ∧
    parse "\\phi\\rightarrow\\psi\\leftrightarrow\\chi" basicSyntax =
      some (.success
        (.node [.str "iff",
          .node [.str "implies", .str "phi", .str "psi"], .str "chi"])
        [("phi", []), ("psi", []), ("chi", [])]) ∧
    parse "\\phi\\leftrightarrow\\psi\\rightarrow\\chi" basicSyntax =
      some (.success
        (.node [.str "iff", .str "phi",
          .node [.str "implies", .str "psi", .str "chi"]])
        [("phi", []), ("psi", []), ("chi", [])]) := by
  exact ⟨rfl, rfl, rfl, rfl, rfl, rfl, rfl, rfl, rfl⟩

/-- Shape of a variable name according to the specified grammar: one
lowercase letter, optionally followed by an underscore and an integer
subscript.  This definition follows the spec's words and is compared
with what `parseVariable` actually accepts. -/
def specVariableShape (s : String) : Bool :=
  match s.data with
  | c :: rest => charBetween 97 122 c && subscriptTail rest
  | [] => false

/-- C8. The subscript halves of the claim hold (`a_{12}=b` succeeds with
the variable named `a_12`; the unbraced `a_12=b` fails with the extra
digit as an unexpected token), but the set of accepted variable names is
strictly larger than the claimed grammar: `parseVariable` tests its
token with the unanchored regular expression `/[a-z]/`, so any token
value containing some lowercase letter is accepted.  On `\foo=a` the
unrecognized control sequence `\foo` is accepted as a variable and the
whole parse succeeds, although `\foo` does not have the claimed shape. -/
theorem c8_variable_grammar_unanchored :
    parse "a_\x7b12\x7d=b" basicSyntax =
      some (.success (.node [.str "eq", .str "a_12", .str "b"]) []) ∧
    parse "a_12=b" basicSyntax = some (.error (.BadToken none "2")) ∧
    parse "\\foo=a" basicSyntax =
      some (.success (.node [.str "eq", .str "\\foo", .str "a"]) []) ∧
    specVariableShape "\\foo" = false ∧
    hasLowercase "\\foo" = true := by
  exact ⟨rfl, rfl, rfl, rfl, rfl⟩

/-- C2 counterexample.  On the input `\exists x \phi\land\psi` — a
quantifier, its bound variable, a formula, an infix connective and a
second formula — the parse succeeds with the conjunction at the root and
the quantifier scope containing only `\phi`: the infix connective and
`\psi` lie outside the quantifier's scope, contradicting the claimed
open-ended (maximal) right reach, which would give a tree rooted at the
quantifier. -/
theorem c2_quantifier_scope_counterexample :
    parse "\\exists x \\phi\\land\\psi" basicSyntax =
      some (.success
        (.node [.str "and",
          .node [.str "exists", .str "x", .str "phi"], .str "psi"])
        [("phi", []), ("psi", [])]) ∧
    ∀ rest : List STree,
      STree.node [.str "and",
        .node [.str "exists", .str "x", .str "phi"], .str "psi"] ≠
      STree.node (.str "exists" :: rest) := by
  refine ⟨rfl, ?_⟩
  intro rest h
  simp at h

/-- In the idle tokenizer state, space characters are discarded and an
all-space character list produces no tokens. -/
theorem tokenizeGo_all_spaces (sy : SynTable) :
    ∀ cs : List Char, (∀ c ∈ cs, c = ' ') → tokenizeGo sy none cs = [] := by
  intro cs h
  induction cs with
  | nil => rfl
  | cons c rest ih =>
    have hc : c = ' ' := h c (List.mem_cons_self _ _)
    subst hc
    simp only [tokenizeGo, if_neg (by decide : ¬(' ' = '\\')), if_pos rfl]
    exact ih fun c hc => h c (List.mem_cons_of_mem _ hc)

/-- C10. A non-empty input consisting only of spaces is not caught by
the blank-input check (which tests the raw text's length) but tokenizes
to the empty token sequence, so the formula parser reports a premature
end of input. -/
theorem c10_all_space_input (s : String) (sy : SynTable)
    (hne : s ≠ "") (hsp : ∀ c ∈ s.data, c = ' ') :
    parse s sy = some (.error (.UnexpectedEnd none)) := by
  have hdata : s.data ≠ [] := by
    intro h
    apply hne
    cases s with
    | mk data => simp_all
  have hlen : ¬(s.length = 0) := by
    intro h0
    exact hdata (List.length_eq_zero.mp h0)
  have htok : tokenize s sy = [] := tokenizeGo_all_spaces sy s.data hsp
  have hpf : parseFormula (4 * s.length + 16) (some 0) [] =
      some (failWith (.UnexpectedEnd none), []) := rfl
  simp only [parse, htok, if_neg hlen, hpf]
  rfl

/-- Membership in a JavaScript-set insertion. -/
theorem mem_setAdd (l : List String) (y x : String) :
    x ∈ setAdd l y ↔ x ∈ l ∨ x = y := by
  unfold setAdd
  by_cases h : l.contains y
  · rw [if_pos h]
    have hy : y ∈ l := List.elem_iff.mp h
    constructor
    · exact fun hx => Or.inl hx
    · rintro (hx | rfl)
      · exact hx
      · exact hy
  · rw [if_neg h]
    simp [List.mem_append]

/-- Membership after folding a list into a JavaScript set, generalized
over the accumulator. -/
theorem mem_foldl_setAdd (l : List String) :
    ∀ (acc : List String) (x : String),
      x ∈ l.foldl setAdd acc ↔ x ∈ acc ∨ x ∈ l := by
  induction l with
  | nil => intro acc x; simp
  | cons y ys ih =>
    intro acc x
    simp only [List.foldl_cons, ih, mem_setAdd, List.mem_cons]
    tauto

/-- Membership in `setOfList`: deduplication preserves membership. -/
theorem mem_setOfList (l : List String) (x : String) :
    x ∈ setOfList l ↔ x ∈ l := by
  unfold setOfList
  rw [mem_foldl_setAdd]
  simp

/-- The boolean set-equality test decides extensional equality of the
two lists as sets. -/
theorem setEqB_iff (a b : List String) :
    setEqB a b = true ↔ ∀ x, x ∈ a ↔ x ∈ b := by
  unfold setEqB
  rw [Bool.and_eq_true, List.all_eq_true, List.all_eq_true]
  constructor
  · rintro ⟨h1, h2⟩ x
    constructor
    · exact fun hx => List.elem_iff.mp (h1 x hx)
    · exact fun hx => List.elem_iff.mp (h2 x hx)
  · intro h
    constructor
    · exact fun x hx => List.elem_iff.mpr ((h x).mp hx)
    · exact fun x hx => List.elem_iff.mpr ((h x).mpr hx)

/-- Deduplicating both sides does not change the set-equality test. -/
theorem setEqB_setOfList (l1 l2 : List String) :
    setEqB (setOfList l1) (setOfList l2) = setEqB l1 l2 := by
  by_cases h : ∀ x, x ∈ l1 ↔ x ∈ l2
  · rw [(setEqB_iff l1 l2).mpr h,
      (setEqB_iff (setOfList l1) (setOfList l2)).mpr
        (fun x => by rw [mem_setOfList, mem_setOfList]; exact h x)]
  · have h1 : setEqB l1 l2 ≠ true := fun hc => h ((setEqB_iff _ _).mp hc)
    have h2 : setEqB (setOfList l1) (setOfList l2) ≠ true := fun hc => by
      apply h
      intro x
      have := (setEqB_iff _ _).mp hc x
      rwa [mem_setOfList, mem_setOfList] at this
    rw [Bool.eq_false_iff.mpr h1, Bool.eq_false_iff.mpr h2]

/-- Stripping the leaf constructor after wrapping is the identity. -/
theorem map_strOf_str (l : List String) : List.map (strOf ∘ STree.str) l = l := by
  induction l with
  | nil => rfl
  | cons x xs ih => simp [ih, strOf]

/-- A metavariable node becomes its bare name plus a singleton map whose
value is the declared list as a set. -/
theorem cas_metavar_node (m : String) (l : List String) :
    checkAllowedSubs (.node (.str "_metavar" :: .str m :: l.map .str)) =
      succeedWith (.str m) [(m, setOfList l)] := by
  simp [checkAllowedSubs, strOf, List.map_map, map_strOf_str]

/-- Evaluation of `checkAllowedSubs` on a node whose two children are
occurrences of one metavariable with declared free-variable lists `l1`
and `l2`: success exactly when the two lists agree as sets, and the
inconsistent-declarations error naming the metavariable otherwise. -/
theorem cas_two_metavars (op m : String) (l1 l2 : List String)
    (hop : ¬(op = "_metavar")) :
    checkAllowedSubs (.node [.str op,
        .node (.str "_metavar" :: .str m :: l1.map .str),
        .node (.str "_metavar" :: .str m :: l2.map .str)]) =
      if setEqB l1 l2 then
        .success (.node [.str op, .str m, .str m]) [(m, setOfList l2)]
      else .error (.InconsistentAllowedSubs m) := by
  have h1 := cas_metavar_node m l1
  have h2 := cas_metavar_node m l2
  simp only [checkAllowedSubs, if_neg hop, casGo, h1, h2, succeedWith]
  simp only [findInconsistency, List.find?, mergeSubs]
  simp only [setEqB_setOfList, List.lookup, treeArgs, List.map_map, map_strOf_str, strOf]
  by_cases hs : setEqB l1 l2
  · simp [hs, setEqB_setOfList]
  · simp [Bool.eq_false_iff.mpr hs, setEqB_setOfList]

/-- C5. Substitution-consistency checking is set-based.  The boolean
test `setEqB` used by the checker decides extensional set equality
(ignoring order and duplication); for two occurrences of one
metavariable under any operator node, `checkAllowedSubs` succeeds
exactly when the declared lists agree as sets and otherwise fails with
the inconsistent-declarations error naming that metavariable.  The
concrete parses show order-insensitivity (`\phi(x,y)` with `\phi(y,x)`),
duplication-insensitivity (`\phi(x)` with `\phi(x,x)`), and failure of
`\phi(x)` against `\phi(z)` through the full entry point. -/
theorem c5_substitution_consistency_set_based :
    (∀ l1 l2 : List String, setEqB l1 l2 = true ↔ ∀ x, x ∈ l1 ↔ x ∈ l2) ∧
    (∀ (op m : String) (l1 l2 : List String), ¬(op = "_metavar") →
      checkAllowedSubs (.node [.str op,
          .node (.str "_metavar" :: .str m :: l1.map .str),
          .node (.str "_metavar" :: .str m :: l2.map .str)]) =
        if setEqB l1 l2 then
          .success (.node [.str op, .str m, .str m]) [(m, setOfList l2)]
        else .error (.InconsistentAllowedSubs m)) ∧
    parse "\\forall x\\forall y(\\phi(x,y)\\land\\phi(y,x))" basicSyntax =
      some (.success
        (.node [.str "forall", .str "x",
          .node [.str "forall", .str "y",
            .node [.str "and", .str "phi", .str "phi"]]])
        [("phi", ["y", "x"])]) ∧
    parse "\\forall x(\\phi(x)\\land\\phi(x,x))" basicSyntax =
      some (.success
        (.node [.str "forall", .str "x",
          .node [.str "and", .str "phi", .str "phi"]])
        [("phi", ["x"])]) ∧
    parse "\\forall x\\forall z(\\phi(x)\\land\\phi(z))" basicSyntax =
      some (.error (.InconsistentAllowedSubs "phi")) := by
  exact ⟨setEqB_iff, cas_two_metavars, rfl, rfl, rfl⟩

/-- Witness for C5 at a concrete instance: under `and`, the metavariable
`phi` declared with `[x]` at one occurrence and `[z]` at the other is an
inconsistency reported for `phi`. -/
theorem c5_substitution_consistency_set_based_witness :
    checkAllowedSubs (.node [.str "and",
        .node [.str "_metavar", .str "phi", .str "x"],
        .node [.str "_metavar", .str "phi", .str "z"]]) =
      .error (.InconsistentAllowedSubs "phi") := by
  have h := c5_substitution_consistency_set_based.2.1 "and" "phi" ["x"] ["z"]
    (by decide)
  simpa using h

/-- Witness for C10: one space is reported as a premature end of input,
not as a blank expression. -/
theorem c10_all_space_input_witness :
    parse " " basicSyntax = some (.error (.UnexpectedEnd none)) :=
  c10_all_space_input " " basicSyntax (by decide) (by decide)

mutual

/-- Occurrence of the name `v` outside the scope of a binder for it,
written from the claim's wording for comparison with
`checkFreeVariables`: a leaf occurrence of `v` counts; at a quantifier
node an occurrence in the scope counts unless the bound variable is `v`
itself; at any other node an occurrence in some argument counts (the
operator position is not an occurrence). -/
def specFreeOccurrence (sy : SynTable) (v : String) : STree → Bool
  | .str s => s == v
  | .node [] => false
  | .node (op :: args) =>
    match (match op with | .str s => synGet sy s | .node _ => none) with
    | some (.quantifier _) => specFreeOccurrenceQuant sy v args
    | _ => specFreeOccurrenceList sy v args

/-- The quantifier case of the claim-side occurrence predicate. -/
def specFreeOccurrenceQuant (sy : SynTable) (v : String) : List STree → Bool
  | w :: scope :: _ => specFreeOccurrence sy v scope && !(strOf w == v)
  | _ => false

/-- Occurrence of `v` outside a binder in some tree of a list. -/
def specFreeOccurrenceList (sy : SynTable) (v : String) : List STree → Bool
  | [] => false
  | t :: ts => specFreeOccurrence sy v t || specFreeOccurrenceList sy v ts

end

/-- Membership in a set union. -/
theorem mem_listUnion (a b : List String) (x : String) :
    x ∈ listUnion a b ↔ x ∈ a ∨ x ∈ b := by
  unfold listUnion
  exact mem_foldl_setAdd b a x

/-- Membership after a set deletion. -/
theorem mem_listRemove (l : List String) (v x : String) :
    x ∈ listRemove l v ↔ x ∈ l ∧ ¬(x = v) := by
  unfold listRemove
  simp [List.mem_filter]

/-- Unfolding of `checkFreeVariables` at a non-empty node. -/
theorem cfv_node (sy : SynTable) (op : STree) (args : List STree) :
    checkFreeVariables sy (.node (op :: args)) =
      (match (match op with | .str s => synGet sy s | .node _ => none) with
      | some (.quantifier _) => cfvQuant sy args
      | _ => cfvGo sy [] args) := rfl

/-- Unfolding of the claim-side occurrence predicate at a non-empty
node. -/
theorem sfo_node (sy : SynTable) (v : String) (op : STree) (args : List STree) :
    specFreeOccurrence sy v (.node (op :: args)) =
      (match (match op with | .str s => synGet sy s | .node _ => none) with
      | some (.quantifier _) => specFreeOccurrenceQuant sy v args
      | _ => specFreeOccurrenceList sy v args) := rfl

mutual

/-- The collection computed by `checkFreeVariables` contains exactly the
ordinary variables with a free occurrence in the claim's sense. -/
theorem mem_checkFreeVariables (sy : SynTable) (v : String) (t : STree) :
    v ∈ checkFreeVariables sy t ↔
      (isRegVar (.str v) = true ∧ specFreeOccurrence sy v t = true) := by
  match t with
  | .str s =>
    simp only [checkFreeVariables, specFreeOccurrence]
    by_cases hv : s = v
    · subst hv
      cases hr : isRegVar (.str s) <;> simp [hr]
    · cases hr : isRegVar (.str s) <;> simp [hr, hv, Ne.symm hv]
  | .node [] =>
    constructor
    · intro h
      have h' : v ∈ ([] : List String) := h
      exact absurd h' (List.not_mem_nil v)
    · rintro ⟨-, h⟩
      have h' : false = true := h
      exact absurd h' (by decide)
  | .node (op :: args) =>
    rw [cfv_node sy op args, sfo_node sy v op args]
    cases hq : (match op with | .str s => synGet sy s | .node _ => none) with
    | none =>
      have hgo := mem_cfvGo sy v args []
      simpa using hgo
    | some con =>
      cases con with
      | quantifier lab =>
        match args with
        | [] => simp [cfvQuant, specFreeOccurrenceQuant]
        | [w] => simp [cfvQuant, specFreeOccurrenceQuant]
        | w :: scope :: restArgs =>
          have hs := mem_checkFreeVariables sy v scope
          show v ∈ listRemove (checkFreeVariables sy scope) (strOf w) ↔ _
          rw [mem_listRemove, hs]
          show _ ↔ (_ ∧ (specFreeOccurrence sy v scope && !(strOf w == v)) = true)
          simp only [Bool.and_eq_true, Bool.not_eq_true', beq_eq_false_iff_ne]
          constructor
          · rintro ⟨⟨h1, h2⟩, h3⟩
            exact ⟨h1, h2, fun he => h3 he.symm⟩
          · rintro ⟨h1, h2, h3⟩
            exact ⟨⟨h1, h2⟩, fun he => h3 he.symm⟩
      | connective c =>
        have hgo := mem_cfvGo sy v args []
        simpa using hgo
      | predicate p =>
        have hgo := mem_cfvGo sy v args []
        simpa using hgo
      | function f =>
        have hgo := mem_cfvGo sy v args []
        simpa using hgo

/-- The fold of `checkFreeVariables` over a list of trees, with the
accumulator made explicit. -/
theorem mem_cfvGo (sy : SynTable) (v : String) (l : List STree) :
    ∀ acc : List String, v ∈ cfvGo sy acc l ↔
      (v ∈ acc ∨ (isRegVar (.str v) = true ∧
        specFreeOccurrenceList sy v l = true)) := by
  match l with
  | [] =>
    intro acc
    simp [cfvGo, specFreeOccurrenceList]
  | t :: ts =>
    intro acc
    have ht := mem_checkFreeVariables sy v t
    have hts := mem_cfvGo sy v ts (listUnion acc (checkFreeVariables sy t))
    simp only [cfvGo, specFreeOccurrenceList]
    rw [hts, mem_listUnion, ht]
    simp only [Bool.or_eq_true]
    tauto

end

/-- An eigenvariable is never an ordinary variable: the leading-letter
ranges a-r and s-z are disjoint. -/
theorem eigenvar_not_regvar (v : String) :
    isEigenvar (.str v) = true → isRegVar (.str v) = false := by
  have he : isEigenvar (.str v) =
      (match v.data with
       | c :: rest => charBetween 97 114 c && subscriptTail rest
       | [] => false) := rfl
  have hr : isRegVar (.str v) =
      (match v.data with
       | c :: rest => charBetween 115 122 c && subscriptTail rest
       | [] => false) := rfl
  rw [he, hr]
  cases hd : v.data with
  | nil => simp
  | cons c rest =>
    simp only [Bool.and_eq_true, charBetween, decide_eq_true_eq]
    rintro ⟨⟨h1, h2⟩, h3⟩
    have hn : ¬(115 ≤ c.toNat ∧ c.toNat ≤ 122) := by omega
    simp [hn]

/-- C6. The free-variable pass collects exactly the ordinary variables
(`isRegVar`, letters s-z) that occur outside the scope of a binder for
them; an eigenvariable is never collected; and whenever the token
sequence of an input parses completely and an ordinary variable occurs
free in the resulting tree, the entry point reports the unbound-variable
error, whose reported variable is itself an ordinary variable. -/
theorem c6_unbound_ordinary_variable_error :
    (∀ (sy : SynTable) (t : STree) (v : String),
      v ∈ checkFreeVariables sy t ↔
        (isRegVar (.str v) = true ∧ specFreeOccurrence sy v t = true)) ∧
    (∀ (sy : SynTable) (t : STree) (v : String),
      isEigenvar (.str v) = true → v ∉ checkFreeVariables sy t) ∧
    (∀ (input : String) (sy : SynTable) (tree : STree)
      (subs : List (String × List String)) (v : String),
      ¬(input.length = 0) →
      parseFormula (4 * input.length + 16) (some 0) (tokenize input sy) =
        some (.success tree subs, []) →
      isRegVar (.str v) = true → specFreeOccurrence sy v tree = true →
      ∃ w, parse input sy = some (.error (.FreeVar w)) ∧
        isRegVar (.str w) = true) := by
  refine ⟨fun sy t v => mem_checkFreeVariables sy v t, ?_, ?_⟩
  · intro sy t v hei hmem
    have := ((mem_checkFreeVariables sy v t).mp hmem).1
    rw [eigenvar_not_regvar v hei] at this
    exact absurd this (by decide)
  · intro input sy tree subs v hlen hpf hreg hocc
    have hv : v ∈ checkFreeVariables sy tree :=
      (mem_checkFreeVariables sy v tree).mpr ⟨hreg, hocc⟩
    cases hc : checkFreeVariables sy tree with
    | nil =>
      rw [hc] at hv
      exact absurd hv (List.not_mem_nil v)
    | cons w ws =>
      refine ⟨w, ?_, ?_⟩
      · simp only [parse, hpf, if_neg hlen, hc, List.head?_cons]
        rfl
      · have hw : w ∈ checkFreeVariables sy tree := by
          rw [hc]
          exact List.mem_cons_self _ _
        exact ((mem_checkFreeVariables sy w tree).mp hw).1

/-- Witness for C6 at `a=s`: the token sequence parses completely, `s`
is an ordinary variable occurring free, and the parse reports an
unbound ordinary variable. -/
theorem c6_unbound_ordinary_variable_error_witness :
    ∃ w, parse "a=s" basicSyntax = some (.error (.FreeVar w)) ∧
      isRegVar (.str w) = true :=
  c6_unbound_ordinary_variable_error.2.2 "a=s" basicSyntax
    (.node [.str "eq", .str "a", .str "s"]) [] "s"
    (by decide) (by rfl) (by decide) (by decide)

/-- A failing parser attempt under `tryParse` returns the error with the
token state restored exactly to the input state. -/
theorem tryParse_error (p : List Token → Option (ParseResult × List Token))
    (tokens ts1 : List Token) (e : ParseError)
    (h : p tokens = some (.error e, ts1)) :
    tryParse tokens p = some (.error e, tokens) := by
  unfold tryParse
  rw [h]

/-- C9. The single backtracking point is atomic in the token cursor:
`tryParse` returns a failing attempt's error with the token sequence
restored exactly to its pre-attempt state, and in `parseBasicFormula`,
when the speculative parenthesized-formula attempt fails on a
non-keyword token, parsing falls through to the term/infix-predicate
alternative applied to the original, fully restored token sequence. -/
theorem c9_backtrack_restores_tokens :
    (∀ (p : List Token → Option (ParseResult × List Token))
       (tokens ts1 : List Token) (e : ParseError),
      p tokens = some (.error e, ts1) →
      tryParse tokens p = some (.error e, tokens)) ∧
    (∀ (fuel : Nat) (val : String) (rest ts1 : List Token) (e : ParseError),
      delimUpNext (⟨.char, val⟩ :: rest) "(" = true →
      parseParens (⟨.char, val⟩ :: rest)
          (fun t3 => parseFormula fuel (some 0) t3) = some (.error e, ts1) →
      parseBasicFormula (fuel + 1) (⟨.char, val⟩ :: rest) =
        parseInfixPred fuel (⟨.char, val⟩ :: rest)) := by
  refine ⟨tryParse_error, ?_⟩
  intro fuel val rest ts1 e hdelim hpp
  have htry : tryParse (⟨.char, val⟩ :: rest)
      (fun t2 => parseParens t2 (fun t3 => parseFormula fuel (some 0) t3)) =
      some (.error e, ⟨.char, val⟩ :: rest) :=
    tryParse_error _ _ _ _ hpp
  simp only [parseBasicFormula, if_pos hdelim, htry]

/-- Witness for C9 on the tokens `( a )`: the speculative formula
attempt fails (there is no infix predicate), and `parseBasicFormula`
equals the fallback on the original token sequence. -/
theorem c9_backtrack_restores_tokens_witness :
    parseBasicFormula (8 + 1)
        [⟨.char, "("⟩, ⟨.char, "a"⟩, ⟨.char, ")"⟩] =
      parseInfixPred 8 [⟨.char, "("⟩, ⟨.char, "a"⟩, ⟨.char, ")"⟩] :=
  c9_backtrack_restores_tokens.2 8 "(" [⟨.char, "a"⟩, ⟨.char, ")"⟩] []
    (.BadToken none ")") (by rfl) (by rfl)

/-- C2 amended.  A quantifier binds exactly one variable and then a
sub-formula parsed with minimum binding power `Infinity`, so its scope
is minimal, not maximal: for every input of the form `quantifier,
variable, formula1, infix connective, formula2` (with any quantifier,
any infix connective of non-negative precedence and either
associativity, and metavariable operands), the infix connective and
`formula2` lie outside the quantifier's scope, and the parse tree is
`[connective, [quantifier, variable, formula1], formula2]`. -/
theorem c2_amended_quantifier_minimal_scope (f : Nat) (ql qv cl cv : String)
    (p : Int) (a : Assoc) (hp : 0 ≤ p) (h1 : ¬(cv = "_")) (h2 : ¬(cv = "("))
    (h3 : ¬(cv = "\\left")) :
    parseFormula (f+1+1+1+1+1+1) (some 0)
      [⟨.quantifier ql, qv⟩, ⟨.char, "x"⟩, ⟨.metavariable "phi", "\\phi"⟩,
       ⟨.connective (.cinf cl p a), cv⟩, ⟨.metavariable "psi", "\\psi"⟩] =
      some (succeedWith (.node [.str cl,
        .node [.str ql, .str "x", .node [.str "_metavar", .str "phi"]],
        .node [.str "_metavar", .str "psi"]]) [], []) := by
  have hlbp : bpLt (bpConn (.cinf cl p a)).1 (some 0) = false := by
    cases a <;> simp [bpConn, bpLt] <;> omega
  have hrscope : bpLt (bpConn (.cinf cl p a)).1 none = true := by
    cases a <;> simp [bpConn, bpLt]
  have hv : headValueIs [(⟨.connective (.cinf cl p a), cv⟩ : Token),
      ⟨.metavariable "psi", "\\psi"⟩] "_" = false := by
    simp [headValueIs, h1]
  have hd : delimUpNext [(⟨.connective (.cinf cl p a), cv⟩ : Token),
      ⟨.metavariable "psi", "\\psi"⟩] "(" = false := by
    simp [delimUpNext, headValueIs, h2, h3]
  have hpbf : ∀ g : Nat, parseBasicFormula (g+1)
      [⟨.metavariable "phi", "\\phi"⟩, ⟨.connective (.cinf cl p a), cv⟩,
       ⟨.metavariable "psi", "\\psi"⟩] =
      some (succeedWith (.node [.str "_metavar", .str "phi"]) [],
        [⟨.connective (.cinf cl p a), cv⟩, ⟨.metavariable "psi", "\\psi"⟩]) := by
    intro g
    simp only [parseBasicFormula]
    simp [hv, hd, succeedWith]
  have hpsi : ∀ (g : Nat) (mb : Option Int),
      parseFormula (g+1+1) mb [⟨.metavariable "psi", "\\psi"⟩] =
      some (succeedWith (.node [.str "_metavar", .str "psi"]) [], []) :=
    fun g mb => rfl
  have hpv : parseVariable [⟨.char, "x"⟩, ⟨.metavariable "phi", "\\phi"⟩,
      ⟨.connective (.cinf cl p a), cv⟩, ⟨.metavariable "psi", "\\psi"⟩] =
      (succeedWith (.str "x") [],
        [⟨.metavariable "phi", "\\phi"⟩, ⟨.connective (.cinf cl p a), cv⟩,
         ⟨.metavariable "psi", "\\psi"⟩]) := rfl
  simp only [parseFormula, hpv, hpbf, hpsi, succeedWith]
  simp [parseFormulaLoop, hrscope, hlbp, hpsi, succeedWith,
    show isEigenvar (.str "x") = false from rfl]

/-- Witness for the amended C2 at `\forall x \phi \land \psi`-shaped
tokens: the conjunction ends up at the root, outside the scope. -/
theorem c2_amended_quantifier_minimal_scope_witness :
    parseFormula (0+1+1+1+1+1+1) (some 0)
      [⟨.quantifier "forall", "\\forall"⟩, ⟨.char, "x"⟩,
       ⟨.metavariable "phi", "\\phi"⟩,
       ⟨.connective (.cinf "and" 3 .left), "\\land"⟩,
       ⟨.metavariable "psi", "\\psi"⟩] =
      some (succeedWith (.node [.str "and",
        .node [.str "forall", .str "x", .node [.str "_metavar", .str "phi"]],
        .node [.str "_metavar", .str "psi"]]) [], []) :=
  c2_amended_quantifier_minimal_scope 0 "forall" "\\forall" "and" "\\land" 3
    .left (by decide) (by decide) (by decide) (by decide)

/-- C4. Associativity.  For every infix connective declared
left-associative, `a op b op c` parses as `(a op b) op c`; for every
infix connective declared right-associative, it parses as
`a op (b op c)`; and for every infix function (all of which are
left-associative by construction), `a op b op c` parses as
`(a op b) op c`.  The operator's label, spelling and (non-negative)
precedence are arbitrary; the operands are metavariables for the
connective cases and eigenvariables for the function case. -/
theorem c4_infix_associativity :
    (∀ (f : Nat) (cl cv : String) (p : Int), 0 ≤ p → ¬(cv = "_") →
      ¬(cv = "(") → ¬(cv = "\\left") →
      parseFormula (f+1+1+1+1+1+1) (some 0)
        [⟨.metavariable "phi", "\\phi"⟩, ⟨.connective (.cinf cl p .left), cv⟩,
         ⟨.metavariable "psi", "\\psi"⟩, ⟨.connective (.cinf cl p .left), cv⟩,
         ⟨.metavariable "chi", "\\chi"⟩] =
        some (succeedWith (.node [.str cl,
          .node [.str cl, .node [.str "_metavar", .str "phi"],
            .node [.str "_metavar", .str "psi"]],
          .node [.str "_metavar", .str "chi"]]) [], [])) ∧
    (∀ (f : Nat) (cl cv : String) (p : Int), 0 ≤ p → ¬(cv = "_") →
      ¬(cv = "(") → ¬(cv = "\\left") →
      parseFormula (f+1+1+1+1+1+1) (some 0)
        [⟨.metavariable "phi", "\\phi"⟩, ⟨.connective (.cinf cl p .right), cv⟩,
         ⟨.metavariable "psi", "\\psi"⟩, ⟨.connective (.cinf cl p .right), cv⟩,
         ⟨.metavariable "chi", "\\chi"⟩] =
        some (succeedWith (.node [.str cl,
          .node [.str "_metavar", .str "phi"],
          .node [.str cl, .node [.str "_metavar", .str "psi"],
            .node [.str "_metavar", .str "chi"]]]) [], [])) ∧
    (∀ (f : Nat) (fl fv : String) (p : Int), 0 ≤ p → ¬(fv = "_") →
      parseTerm (f+1+1+1+1+1+1) 0
        [⟨.char, "a"⟩, ⟨.function (.finf fl p), fv⟩, ⟨.char, "b"⟩,
         ⟨.function (.finf fl p), fv⟩, ⟨.char, "c"⟩] =
        some (succeedWith (.node [.str fl,
          .node [.str fl, .str "a", .str "b"], .str "c"]) [], [])) := by
  refine ⟨?_, ?_, ?_⟩
  · intro f cl cv p hp h1 h2 h3
    have hA : bpLt (bpConn (.cinf cl p .left)).1 (some 0) = false := by
      simp [bpConn, bpLt]
      omega
    have hB : bpLt (bpConn (.cinf cl p .left)).1
        (some (bpConn (.cinf cl p .left)).2) = true := by
      simp [bpConn, bpLt]
    have hv : ∀ rest : List Token, headValueIs
        (⟨.connective (.cinf cl p .left), cv⟩ :: rest) "_" = false := by
      intro rest
      simp [headValueIs, h1]
    have hd : ∀ rest : List Token, delimUpNext
        (⟨.connective (.cinf cl p .left), cv⟩ :: rest) "(" = false := by
      intro rest
      simp [delimUpNext, headValueIs, h2, h3]
    have hpbf1 : ∀ g : Nat, parseBasicFormula (g+1)
        [⟨.metavariable "phi", "\\phi"⟩, ⟨.connective (.cinf cl p .left), cv⟩,
         ⟨.metavariable "psi", "\\psi"⟩, ⟨.connective (.cinf cl p .left), cv⟩,
         ⟨.metavariable "chi", "\\chi"⟩] =
        some (succeedWith (.node [.str "_metavar", .str "phi"]) [],
          [⟨.connective (.cinf cl p .left), cv⟩, ⟨.metavariable "psi", "\\psi"⟩,
           ⟨.connective (.cinf cl p .left), cv⟩, ⟨.metavariable "chi", "\\chi"⟩]) := by
      intro g
      simp only [parseBasicFormula]
      simp [hv, hd, succeedWith]
    have hpbf2 : ∀ g : Nat, parseBasicFormula (g+1)
        [⟨.metavariable "psi", "\\psi"⟩, ⟨.connective (.cinf cl p .left), cv⟩,
         ⟨.metavariable "chi", "\\chi"⟩] =
        some (succeedWith (.node [.str "_metavar", .str "psi"]) [],
          [⟨.connective (.cinf cl p .left), cv⟩, ⟨.metavariable "chi", "\\chi"⟩]) := by
      intro g
      simp only [parseBasicFormula]
      simp [hv, hd, succeedWith]
    have hchi : ∀ (g : Nat) (mb : Option Int),
        parseFormula (g+1+1) mb [⟨.metavariable "chi", "\\chi"⟩] =
        some (succeedWith (.node [.str "_metavar", .str "chi"]) [], []) :=
      fun g mb => rfl
    have hpf2 : ∀ g : Nat, parseFormula (g+1+1+1) (some (bpConn (.cinf cl p .left)).2)
        [⟨.metavariable "psi", "\\psi"⟩, ⟨.connective (.cinf cl p .left), cv⟩,
         ⟨.metavariable "chi", "\\chi"⟩] =
        some (succeedWith (.node [.str "_metavar", .str "psi"]) [],
          [⟨.connective (.cinf cl p .left), cv⟩, ⟨.metavariable "chi", "\\chi"⟩]) := by
      intro g
      simp only [parseFormula, hpbf2, succeedWith]
      simp [parseFormulaLoop, hB, succeedWith]
    simp only [parseFormula, hpbf1, succeedWith]
    simp [parseFormulaLoop, hA, hB, hpf2, hchi, succeedWith]
  · intro f cl cv p hp h1 h2 h3
    have hA : bpLt (bpConn (.cinf cl p .right)).1 (some 0) = false := by
      simp [bpConn, bpLt]
      omega
    have hC : bpLt (bpConn (.cinf cl p .right)).1
        (some (bpConn (.cinf cl p .right)).2) = false := by
      simp [bpConn, bpLt]
    have hv : ∀ rest : List Token, headValueIs
        (⟨.connective (.cinf cl p .right), cv⟩ :: rest) "_" = false := by
      intro rest
      simp [headValueIs, h1]
    have hd : ∀ rest : List Token, delimUpNext
        (⟨.connective (.cinf cl p .right), cv⟩ :: rest) "(" = false := by
      intro rest
      simp [delimUpNext, headValueIs, h2, h3]
    have hpbf1 : ∀ g : Nat, parseBasicFormula (g+1)
        [⟨.metavariable "phi", "\\phi"⟩, ⟨.connective (.cinf cl p .right), cv⟩,
         ⟨.metavariable "psi", "\\psi"⟩, ⟨.connective (.cinf cl p .right), cv⟩,
         ⟨.metavariable "chi", "\\chi"⟩] =
        some (succeedWith (.node [.str "_metavar", .str "phi"]) [],
          [⟨.connective (.cinf cl p .right), cv⟩, ⟨.metavariable "psi", "\\psi"⟩,
           ⟨.connective (.cinf cl p .right), cv⟩, ⟨.metavariable "chi", "\\chi"⟩]) := by
      intro g
      simp only [parseBasicFormula]
      simp [hv, hd, succeedWith]
    have hpbf2 : ∀ g : Nat, parseBasicFormula (g+1)
        [⟨.metavariable "psi", "\\psi"⟩, ⟨.connective (.cinf cl p .right), cv⟩,
         ⟨.metavariable "chi", "\\chi"⟩] =
        some (succeedWith (.node [.str "_metavar", .str "psi"]) [],
          [⟨.connective (.cinf cl p .right), cv⟩, ⟨.metavariable "chi", "\\chi"⟩]) := by
      intro g
      simp only [parseBasicFormula]
      simp [hv, hd, succeedWith]
    have hchi : ∀ (g : Nat) (mb : Option Int),
        parseFormula (g+1+1) mb [⟨.metavariable "chi", "\\chi"⟩] =
        some (succeedWith (.node [.str "_metavar", .str "chi"]) [], []) :=
      fun g mb => rfl
    have hpf2 : ∀ g : Nat, parseFormula (g+1+1+1+1)
        (some (bpConn (.cinf cl p .right)).2)
        [⟨.metavariable "psi", "\\psi"⟩, ⟨.connective (.cinf cl p .right), cv⟩,
         ⟨.metavariable "chi", "\\chi"⟩] =
        some (succeedWith (.node [.str cl, .node [.str "_metavar", .str "psi"],
          .node [.str "_metavar", .str "chi"]]) [], []) := by
      intro g
      simp only [parseFormula, hpbf2, succeedWith]
      simp [parseFormulaLoop, hC, hchi, succeedWith]
    simp only [parseFormula, hpbf1, succeedWith]
    simp [parseFormulaLoop, hA, hpf2, succeedWith]
  · intro f fl fv p hp h1
    have hF1 : decide ((bpFunc (.finf fl p)).1 < (0 : Int)) = false := by
      simp [bpFunc]
      omega
    have hF2 : decide ((bpFunc (.finf fl p)).1 < (bpFunc (.finf fl p)).2) = true := by
      simp [bpFunc]
    have hv : ∀ rest : List Token, headValueIs
        (⟨.function (.finf fl p), fv⟩ :: rest) "_" = false := by
      intro rest
      simp [headValueIs, h1]
    have hpbt1 : ∀ (g : Nat) (rest : List Token), parseBasicTerm (g+1)
        (⟨.char, "a"⟩ :: ⟨.function (.finf fl p), fv⟩ :: rest) =
        some (succeedWith (.str "a") [], ⟨.function (.finf fl p), fv⟩ :: rest) := by
      intro g rest
      simp only [parseBasicTerm]
      simp [delimUpNext, headValueIs, parseVariable, hv, h1, hasLowercase,
        charBetween, succeedWith]
    have hpbt2 : ∀ (g : Nat) (rest : List Token), parseBasicTerm (g+1)
        (⟨.char, "b"⟩ :: ⟨.function (.finf fl p), fv⟩ :: rest) =
        some (succeedWith (.str "b") [], ⟨.function (.finf fl p), fv⟩ :: rest) := by
      intro g rest
      simp only [parseBasicTerm]
      simp [delimUpNext, headValueIs, parseVariable, hv, h1, hasLowercase,
        charBetween, succeedWith]
    have hpt3 : ∀ (g : Nat) (mb : Int),
        parseTerm (g+1+1) mb [⟨.char, "c"⟩] =
        some (succeedWith (.str "c") [], []) :=
      fun g mb => rfl
    have hpt2 : ∀ g : Nat, parseTerm (g+1+1+1) ((bpFunc (.finf fl p)).2)
        [⟨.char, "b"⟩, ⟨.function (.finf fl p), fv⟩, ⟨.char, "c"⟩] =
        some (succeedWith (.str "b") [],
          [⟨.function (.finf fl p), fv⟩, ⟨.char, "c"⟩]) := by
      intro g
      simp only [parseTerm, hpbt2, succeedWith]
      simp [parseTermLoop, hF2, succeedWith]
    simp only [parseTerm, hpbt1, succeedWith]
    simp [parseTermLoop, hF1, hpt2, hpt3, succeedWith]

/-- Witness for C4 at the default table's conjunction: the
left-associative fold of `\phi \land \psi \land \chi`. -/
theorem c4_infix_associativity_witness :
    parseFormula (0+1+1+1+1+1+1) (some 0)
      [⟨.metavariable "phi", "\\phi"⟩, ⟨.connective (.cinf "and" 3 .left), "\\land"⟩,
       ⟨.metavariable "psi", "\\psi"⟩, ⟨.connective (.cinf "and" 3 .left), "\\land"⟩,
       ⟨.metavariable "chi", "\\chi"⟩] =
      some (succeedWith (.node [.str "and",
        .node [.str "and", .node [.str "_metavar", .str "phi"],
          .node [.str "_metavar", .str "psi"]],
        .node [.str "_metavar", .str "chi"]]) [], []) :=
  c4_infix_associativity.1 0 "and" "\\land" 3 (by decide) (by decide)
    (by decide) (by decide)

/-- Token list for the tail of a comma-separated argument list: `n`
further arguments, each a comma followed by the eigenvariable `a`. -/
def argsToks : Nat → List Token
  | 0 => []
  | n+1 => ⟨.char, ","⟩ :: ⟨.char, "a"⟩ :: argsToks n

/-- A term parse of the eigenvariable `a` followed by a comma. -/
theorem parseTerm_eig_comma (g : Nat) (rest : List Token) :
    parseTerm (g+1+1) 0 (⟨.char, "a"⟩ :: ⟨.char, ","⟩ :: rest) =
      some (succeedWith (.str "a") [], ⟨.char, ","⟩ :: rest) := rfl

/-- A term parse of the eigenvariable `a` followed by a right paren. -/
theorem parseTerm_eig_rpar (g : Nat) (rest : List Token) :
    parseTerm (g+1+1) 0 (⟨.char, "a"⟩ :: ⟨.char, ")"⟩ :: rest) =
      some (succeedWith (.str "a") [], ⟨.char, ")"⟩ :: rest) := rfl

/-- A basic-term parse of the eigenvariable `a` before a comma. -/
theorem parseBasicTerm_eig_comma (g : Nat) (rest : List Token) :
    parseBasicTerm (g+1) (⟨.char, "a"⟩ :: ⟨.char, ","⟩ :: rest) =
      some (succeedWith (.str "a") [], ⟨.char, ","⟩ :: rest) := rfl

/-- A basic-term parse of the eigenvariable `a` before a right paren. -/
theorem parseBasicTerm_eig_rpar (g : Nat) (rest : List Token) :
    parseBasicTerm (g+1) (⟨.char, "a"⟩ :: ⟨.char, ")"⟩ :: rest) =
      some (succeedWith (.str "a") [], ⟨.char, ")"⟩ :: rest) := rfl

/-- The comma loop of `parseList` collects exactly one item per comma
when the item parser accepts each `a`, for any sufficient fuel. -/
theorem parseListGo_args (p : List Token → Option (ParseResult × List Token))
    (hp : ∀ j : Nat, p (⟨.char, "a"⟩ :: argsToks j ++ [⟨.char, ")"⟩]) =
      some (succeedWith (.str "a") [], argsToks j ++ [⟨.char, ")"⟩])) :
    ∀ (j g : Nat) (acc : List STree), j ≤ g →
      parseListGo (g+1) p acc (argsToks j ++ [⟨.char, ")"⟩]) =
      some (succeedWith (.node (acc ++ List.replicate j (.str "a"))) [],
        [⟨.char, ")"⟩]) := by
  intro j
  induction j with
  | zero =>
    intro g acc hjg
    simp [argsToks, parseListGo, succeedWith]
  | succ j ih =>
    intro g acc hjg
    obtain ⟨g2, rfl⟩ : ∃ g2, g = g2 + 1 := ⟨g - 1, by omega⟩
    have hunf : parseListGo (g2+1+1) p acc
        (argsToks (j+1) ++ [⟨.char, ")"⟩]) =
        (match p (⟨.char, "a"⟩ :: argsToks j ++ [⟨.char, ")"⟩]) with
        | none => none
        | some (.error e, ts) => some (.error e, ts)
        | some (.success item _, ts) => parseListGo (g2+1) p (acc ++ [item]) ts) := rfl
    rw [hunf, hp j]
    have hred : (match (some (succeedWith (.str "a") [],
          argsToks j ++ [⟨.char, ")"⟩]) : Option (ParseResult × List Token)) with
        | none => none
        | some (.error e, ts) => some (.error e, ts)
        | some (.success item _, ts) => parseListGo (g2+1) p (acc ++ [item]) ts) =
        parseListGo (g2+1) p (acc ++ [.str "a"]) (argsToks j ++ [⟨.char, ")"⟩]) := rfl
    rw [hred]
    rw [ih g2 (acc ++ [STree.str "a"]) (by omega)]
    simp [List.replicate_succ]

/-- A full comma-separated list parse of `j+1` eigenvariables. -/
theorem parseList_args (p : List Token → Option (ParseResult × List Token))
    (hp : ∀ j : Nat, p (⟨.char, "a"⟩ :: argsToks j ++ [⟨.char, ")"⟩]) =
      some (succeedWith (.str "a") [], argsToks j ++ [⟨.char, ")"⟩])) :
    ∀ (j g : Nat), j ≤ g →
      parseList (g+1) p (⟨.char, "a"⟩ :: argsToks j ++ [⟨.char, ")"⟩]) =
      some (succeedWith (.node (List.replicate (j+1) (.str "a"))) [],
        [⟨.char, ")"⟩]) := by
  intro j g hjg
  have hunf : parseList (g+1) p (⟨.char, "a"⟩ :: argsToks j ++ [⟨.char, ")"⟩]) =
      (match p (⟨.char, "a"⟩ :: argsToks j ++ [⟨.char, ")"⟩]) with
      | none => none
      | some (.error e, ts) => some (.error e, ts)
      | some (.success item _, ts) => parseListGo (g+1) p [item] ts) := rfl
  rw [hunf, hp j]
  have hred : (match (some (succeedWith (.str "a") [],
        argsToks j ++ [⟨.char, ")"⟩]) : Option (ParseResult × List Token)) with
      | none => none
      | some (.error e, ts) => some (.error e, ts)
      | some (.success item _, ts) => parseListGo (g+1) p [item] ts) =
      parseListGo (g+1) p [STree.str "a"] (argsToks j ++ [⟨.char, ")"⟩]) := rfl
  rw [hred]
  rw [parseListGo_args p hp j g [STree.str "a"] hjg]
  simp [List.replicate_succ]

/-- A parenthesized group around a parser that succeeds and stops right
before the closing parenthesis. -/
theorem parseParens_simple (parser : List Token → Option (ParseResult × List Token))
    (ts : List Token) (t : STree)
    (h : parser ts = some (succeedWith t [], [⟨.char, ")"⟩])) :
    parseParens (⟨.char, "("⟩ :: ts) parser = some (succeedWith t [], []) := by
  simp [parseParens, parseDelimiter, h, expect, succeedWith]

/-- Evaluation of a prefix-predicate application with declared arity `n`
and `j+1` arguments: success with exactly the parsed arguments when the
counts agree, the wrong-argument-count error naming the operator's
spelling, expected arity and actual count otherwise. -/
theorem pred_arity_eval (j n : Nat) (s L : String) (g : Nat) (hjg : j ≤ g) :
    parseFormula (g+1+1+1+1) (some 0)
      (⟨.predicate (.ppre L n), s⟩ :: ⟨.char, "("⟩ :: ⟨.char, "a"⟩ ::
        argsToks j ++ [⟨.char, ")"⟩]) =
      (if j+1 = n then
        some (succeedWith (.node (.str L :: List.replicate (j+1) (.str "a"))) [], [])
      else some (failWith (.WrongNumArgs s n (j+1)), [])) := by
  have hp : ∀ j2 : Nat, (fun t3 => parseTerm (g+1+1) 0 t3)
      (⟨.char, "a"⟩ :: argsToks j2 ++ [⟨.char, ")"⟩]) =
      some (succeedWith (.str "a") [], argsToks j2 ++ [⟨.char, ")"⟩]) := by
    intro j2
    cases j2 with
    | zero => exact parseTerm_eig_rpar g _
    | succ j3 => exact parseTerm_eig_comma g _
  have hlist : parseList (g+1+1) (fun t3 => parseTerm (g+1+1) 0 t3)
      (⟨.char, "a"⟩ :: argsToks j ++ [⟨.char, ")"⟩]) =
      some (succeedWith (.node (List.replicate (j+1) (.str "a"))) [],
        [⟨.char, ")"⟩]) :=
    parseList_args _ hp j (g+1) (by omega)
  have hparens : parseParens (⟨.char, "("⟩ :: ⟨.char, "a"⟩ ::
      argsToks j ++ [⟨.char, ")"⟩])
      (fun t2 => parseList (g+1+1) (fun t3 => parseTerm (g+1+1) 0 t3) t2) =
      some (succeedWith (.node (List.replicate (j+1) (.str "a"))) [], []) :=
    parseParens_simple _ _ _ hlist
  have hstart : parseFormula (g+1+1+1+1) (some 0)
      (⟨.predicate (.ppre L n), s⟩ :: ⟨.char, "("⟩ :: ⟨.char, "a"⟩ ::
        argsToks j ++ [⟨.char, ")"⟩]) =
      (match parseBasicFormula (g+1+1+1)
          (⟨.predicate (.ppre L n), s⟩ :: ⟨.char, "("⟩ :: ⟨.char, "a"⟩ ::
            argsToks j ++ [⟨.char, ")"⟩]) with
      | none => none
      | some (.error e, ts) => some (.error e, ts)
      | some (.success t _, ts) =>
        parseFormulaLoop (g+1+1+1) (some 0) t ts) := rfl
  have hbf : parseBasicFormula (g+1+1+1)
      (⟨.predicate (.ppre L n), s⟩ :: ⟨.char, "("⟩ :: ⟨.char, "a"⟩ ::
        argsToks j ++ [⟨.char, ")"⟩]) =
      (match parseParens (⟨.char, "("⟩ :: ⟨.char, "a"⟩ ::
          argsToks j ++ [⟨.char, ")"⟩])
          (fun t2 => parseList (g+1+1) (fun t3 => parseTerm (g+1+1) 0 t3) t2) with
      | none => none
      | some (.error e, ts) => some (.error e, ts)
      | some (.success args _, ts) =>
        if (treeArgs args).length ≠ n then
          some (failWith (.WrongNumArgs s n (treeArgs args).length), ts)
        else some (succeedWith (.node (.str L :: treeArgs args)) [], ts)) := rfl
  rw [hstart, hbf, hparens]
  by_cases hn : j + 1 = n
  · simp [hn, treeArgs, succeedWith, parseFormulaLoop]
  · simp [hn, treeArgs, succeedWith, failWith]

/-- Evaluation of a prefix-function application with declared arity `n`
and `j+1` arguments, the term-parser counterpart of
`pred_arity_eval`. -/
theorem func_arity_eval (j n : Nat) (s L : String) (g : Nat) (hjg : j ≤ g) :
    parseTerm (g+1+1+1+1) 0
      (⟨.function (.fpre L n), s⟩ :: ⟨.char, "("⟩ :: ⟨.char, "a"⟩ ::
        argsToks j ++ [⟨.char, ")"⟩]) =
      (if j+1 = n then
        some (succeedWith (.node (.str L :: List.replicate (j+1) (.str "a"))) [], [])
      else some (failWith (.WrongNumArgs s n (j+1)), [])) := by
  have hp : ∀ j2 : Nat, (fun t3 => parseBasicTerm (g+1+1) t3)
      (⟨.char, "a"⟩ :: argsToks j2 ++ [⟨.char, ")"⟩]) =
      some (succeedWith (.str "a") [], argsToks j2 ++ [⟨.char, ")"⟩]) := by
    intro j2
    cases j2 with
    | zero => exact parseBasicTerm_eig_rpar (g+1) _
    | succ j3 => exact parseBasicTerm_eig_comma (g+1) _
  have hlist : parseList (g+1+1) (fun t3 => parseBasicTerm (g+1+1) t3)
      (⟨.char, "a"⟩ :: argsToks j ++ [⟨.char, ")"⟩]) =
      some (succeedWith (.node (List.replicate (j+1) (.str "a"))) [],
        [⟨.char, ")"⟩]) :=
    parseList_args _ hp j (g+1) (by omega)
  have hparens : parseParens (⟨.char, "("⟩ :: ⟨.char, "a"⟩ ::
      argsToks j ++ [⟨.char, ")"⟩])
      (fun t2 => parseList (g+1+1) (fun t3 => parseBasicTerm (g+1+1) t3) t2) =
      some (succeedWith (.node (List.replicate (j+1) (.str "a"))) [], []) :=
    parseParens_simple _ _ _ hlist
  have hstart : parseTerm (g+1+1+1+1) 0
      (⟨.function (.fpre L n), s⟩ :: ⟨.char, "("⟩ :: ⟨.char, "a"⟩ ::
        argsToks j ++ [⟨.char, ")"⟩]) =
      (match parseBasicTerm (g+1+1+1)
          (⟨.function (.fpre L n), s⟩ :: ⟨.char, "("⟩ :: ⟨.char, "a"⟩ ::
            argsToks j ++ [⟨.char, ")"⟩]) with
      | none => none
      | some (.error e, ts) => some (.error e, ts)
      | some (.success t _, ts) => parseTermLoop (g+1+1+1) 0 t ts) := rfl
  have hbt : parseBasicTerm (g+1+1+1)
      (⟨.function (.fpre L n), s⟩ :: ⟨.char, "("⟩ :: ⟨.char, "a"⟩ ::
        argsToks j ++ [⟨.char, ")"⟩]) =
      (match parseParens (⟨.char, "("⟩ :: ⟨.char, "a"⟩ ::
          argsToks j ++ [⟨.char, ")"⟩])
          (fun t2 => parseList (g+1+1) (fun t3 => parseBasicTerm (g+1+1) t3) t2) with
      | none => none
      | some (.error e, ts) => some (.error e, ts)
      | some (.success args _, ts) =>
        if (treeArgs args).length ≠ n then
          some (failWith (.WrongNumArgs s n (treeArgs args).length), ts)
        else some (succeedWith (.node (.str L :: treeArgs args)) [], ts)) := rfl
  rw [hstart, hbt, hparens]
  by_cases hn : j + 1 = n
  · simp [hn, treeArgs, succeedWith, parseTermLoop]
  · simp [hn, treeArgs, succeedWith, failWith]

/-- C7. Arity checking at construction.  For every prefix predicate and
every prefix function of declared arity `n` applied to `j+1` arguments:
when the count differs from `n` the parse fails with the
wrong-argument-count error carrying the operator's spelling, the
expected arity and the actual count; when the counts agree the parse
succeeds and the constructed node has exactly `n` arguments. -/
theorem c7_wrong_argument_count :
    (∀ (j n : Nat) (s L : String) (g : Nat), j ≤ g →
      parseFormula (g+1+1+1+1) (some 0)
        (⟨.predicate (.ppre L n), s⟩ :: ⟨.char, "("⟩ :: ⟨.char, "a"⟩ ::
          argsToks j ++ [⟨.char, ")"⟩]) =
        (if j+1 = n then
          some (succeedWith (.node (.str L :: List.replicate (j+1) (.str "a"))) [], [])
        else some (failWith (.WrongNumArgs s n (j+1)), []))) ∧
    (∀ (j n : Nat) (s L : String) (g : Nat), j ≤ g →
      parseTerm (g+1+1+1+1) 0
        (⟨.function (.fpre L n), s⟩ :: ⟨.char, "("⟩ :: ⟨.char, "a"⟩ ::
          argsToks j ++ [⟨.char, ")"⟩]) =
        (if j+1 = n then
          some (succeedWith (.node (.str L :: List.replicate (j+1) (.str "a"))) [], [])
        else some (failWith (.WrongNumArgs s n (j+1)), []))) :=
  ⟨pred_arity_eval, func_arity_eval⟩

/-- Witness for C7: a unary predicate applied to two arguments fails
with expected 1, actual 2. -/
theorem c7_wrong_argument_count_witness :
    parseFormula (1+1+1+1+1) (some 0)
      (⟨.predicate (.ppre "P" 1), "\\predP"⟩ :: ⟨.char, "("⟩ :: ⟨.char, "a"⟩ ::
        argsToks 1 ++ [⟨.char, ")"⟩]) =
      some (failWith (.WrongNumArgs "\\predP" 1 2), []) := by
  have h := c7_wrong_argument_count.1 1 1 "\\predP" "P" 1 (by decide)
  simpa using h

end FolParser
